import Mathlib

/-!
Shallow embedding of the canvas-board collaborative-whiteboard server:
`src/server/rooms.js` (RoomManager), the StateManager of
`src/unnamed/part_004` (the snapshot with an undo stack and `redoStroke`,
lines 31-152), and the socket handlers of `src/unnamed/part_005`
(server.js).  JavaScript `Map`s are embedded as insertion-ordered
association lists with `Map.get` / `Map.set` / `Map.delete` / `Map.has`
semantics; socket.io broadcast targets (`io.to`, `socket.to`,
`socket.emit`) are embedded as explicit targets resolved against room
membership.
-/

namespace Canvas

abbrev RoomId := String
abbrev UserId := String
abbrev GestureId := String

/-- An {x, y} coordinate pair. -/
structure Point where
  x : Int
  y : Int
deriving Repr, DecidableEq

/-- Stroke style: `{ color, width, isEraser }`. -/
structure Style where
  color : String
  width : Nat
  isEraser : Bool
deriving Repr, DecidableEq

/-- One committed line segment, as built in the server's `drawing_step`
handler: `{ userId, start, end, style, timestamp, id }` (`end` is a Lean
keyword, embedded as `endPoint`; `id` is the gesture id). -/
structure Stroke where
  userId : UserId
  start : Point
  endPoint : Point
  style : Style
  timestamp : Nat
  id : GestureId
deriving Repr, DecidableEq

/-- Per-connection user data: `socket.userData = { id, color, cursor }`. -/
structure UserData where
  id : UserId
  color : String
  cursor : Point
deriving Repr, DecidableEq

/-! JavaScript `Map` embedded as an insertion-ordered association list. -/

/-- JS `Map.prototype.get`: the value at the first matching key, if any. -/
def mapGet {α β : Type} [DecidableEq α] (k : α) : List (α × β) → Option β
  | [] => none
  | (k', v') :: rest => if k' = k then some v' else mapGet k rest

/-- JS `Map.prototype.set`: update the entry in place when the key is
present, append a new entry otherwise. -/
def mapSet {α β : Type} [DecidableEq α] (k : α) (v : β) : List (α × β) → List (α × β)
  | [] => [(k, v)]
  | (k', v') :: rest => if k' = k then (k', v) :: rest else (k', v') :: mapSet k v rest

/-- JS `Map.prototype.delete`: remove the entry at the key, if present. -/
def mapDelete {α β : Type} [DecidableEq α] (k : α) : List (α × β) → List (α × β)
  | [] => []
  | (k', v') :: rest => if k' = k then rest else (k', v') :: mapDelete k rest

/-- JS `Map.prototype.has`. -/
def mapHas {α β : Type} [DecidableEq α] (k : α) (m : List (α × β)) : Bool :=
  (mapGet k m).isSome

/-! RoomManager (`src/server/rooms.js`). -/

/-- A room entry: `{ users: Map of users }`. -/
structure Room where
  users : List (UserId × UserData)
deriving Repr, DecidableEq

/-- `RoomManager`: `this.rooms = new Map()`, keyed by room id. -/
structure RoomManager where
  rooms : List (RoomId × Room)
deriving Repr, DecidableEq

/-- `new RoomManager()`. -/
def RoomManager.empty : RoomManager := ⟨[]⟩

/-- `RoomManager.addUser`: create the room entry if absent, then
`room.users.set(userId, userData)`. -/
def addUser (rm : RoomManager) (roomId : RoomId) (userId : UserId)
    (userData : UserData) : RoomManager :=
  let rooms₀ := if mapHas roomId rm.rooms then rm.rooms
                else mapSet roomId ⟨[]⟩ rm.rooms
  let room := (mapGet roomId rooms₀).getD ⟨[]⟩
  ⟨mapSet roomId ⟨mapSet userId userData room.users⟩ rooms₀⟩

/-- `RoomManager.removeUser`: return unchanged if the room is unknown;
delete the user; delete the whole room if it is now empty. -/
def removeUser (rm : RoomManager) (roomId : RoomId) (userId : UserId) : RoomManager :=
  match mapGet roomId rm.rooms with
  | none => rm
  | some room =>
    let users' := mapDelete userId room.users
    if users'.length = 0 then ⟨mapDelete roomId rm.rooms⟩
    else ⟨mapSet roomId ⟨users'⟩ rm.rooms⟩

/-- `RoomManager.updateUserCursor`: no-op when the room or the user is
unknown; otherwise overwrite only the user's `cursor` field. -/
def updateUserCursor (rm : RoomManager) (roomId : RoomId) (userId : UserId)
    (cursor : Point) : RoomManager :=
  match mapGet roomId rm.rooms with
  | none => rm
  | some room =>
    match mapGet userId room.users with
    | none => rm
    | some user =>
      ⟨mapSet roomId ⟨mapSet userId { user with cursor := cursor } room.users⟩ rm.rooms⟩

/-- `RoomManager.getRoomUsers`: `[]` for an unknown room, otherwise the
array of `({ id, ...data })` objects — the spread copies `data`'s own
`id`, `color`, `cursor` fields, its `id` overwriting the map key. -/
def getRoomUsers (rm : RoomManager) (roomId : RoomId) : List UserData :=
  match mapGet roomId rm.rooms with
  | none => []
  | some room =>
    room.users.map (fun u => { id := u.2.id, color := u.2.color, cursor := u.2.cursor })

/-- `RoomManager.getRoomUserCount`. -/
def getRoomUserCount (rm : RoomManager) (roomId : RoomId) : Nat :=
  match mapGet roomId rm.rooms with
  | none => 0
  | some room => room.users.length

/-- `RoomManager.roomExists`: `this.rooms.has(roomId)`. -/
def roomExists (rm : RoomManager) (roomId : RoomId) : Bool :=
  mapHas roomId rm.rooms

/-! StateManager (`src/unnamed/part_004`, first snapshot: the version with
`undoStack` and `redoStroke`). -/

/-- Per-room drawing state: `{ strokes: [], undoStack: [] }`.  The undo
stack grows at the tail (`push`) and shrinks at the tail (`pop`). -/
structure RoomState where
  strokes : List Stroke
  undoStack : List (List Stroke)
deriving Repr, DecidableEq

/-- `StateManager`: `this.roomStates = new Map()`. -/
structure StateManager where
  roomStates : List (RoomId × RoomState)
deriving Repr, DecidableEq

/-- `new StateManager()`. -/
def StateManager.empty : StateManager := ⟨[]⟩

/-- `StateManager.getHistory`: `[]` when the room has no state, otherwise
its strokes array. -/
def getHistory (sm : StateManager) (roomId : RoomId) : List Stroke :=
  match mapGet roomId sm.roomStates with
  | none => []
  | some st => st.strokes

/-- `StateManager.addStroke`: create `{ strokes: [], undoStack: [] }` if
absent, push the stroke, then clear the undo stack
(`state.undoStack = []`). -/
def addStroke (sm : StateManager) (roomId : RoomId) (stroke : Stroke) : StateManager :=
  let states₀ := if mapHas roomId sm.roomStates then sm.roomStates
                 else mapSet roomId ⟨[], []⟩ sm.roomStates
  let st := (mapGet roomId states₀).getD ⟨[], []⟩
  ⟨mapSet roomId ⟨st.strokes ++ [stroke], []⟩ states₀⟩

/-- `StateManager.undoStroke`: return `null` when the room has no state or
no strokes; otherwise read the id of the last stroke, keep the strokes
whose id differs, push the filtered-out strokes (in original order) onto
the undo stack, and return `{ id: strokeId }`. -/
def undoStroke (sm : StateManager) (roomId : RoomId) :
    StateManager × Option GestureId :=
  match mapGet roomId sm.roomStates with
  | none => (sm, none)
  | some st =>
    match st.strokes.getLast? with
    | none => (sm, none)
    | some lastStroke =>
      let strokeId := lastStroke.id
      let removedParts := st.strokes.filter (fun s => s.id = strokeId)
      let kept := st.strokes.filter (fun s => ¬ s.id = strokeId)
      (⟨mapSet roomId ⟨kept, st.undoStack ++ [removedParts]⟩ sm.roomStates⟩,
       some strokeId)

/-- `StateManager.redoStroke`: return `null` when the room has no state or
an empty undo stack; otherwise pop the most recent entry and push each of
its strokes back onto the strokes array, returning the popped entry. -/
def redoStroke (sm : StateManager) (roomId : RoomId) :
    StateManager × Option (List Stroke) :=
  match mapGet roomId sm.roomStates with
  | none => (sm, none)
  | some st =>
    match st.undoStack.getLast? with
    | none => (sm, none)
    | some strokeParts =>
      (⟨mapSet roomId ⟨st.strokes ++ strokeParts, st.undoStack.dropLast⟩ sm.roomStates⟩,
       some strokeParts)

/-- `StateManager.clearRoom`: when the room has state, empty both the
strokes array and the undo stack. -/
def clearRoom (sm : StateManager) (roomId : RoomId) : StateManager :=
  match mapGet roomId sm.roomStates with
  | none => sm
  | some _ => ⟨mapSet roomId ⟨[], []⟩ sm.roomStates⟩

/-- `StateManager.deleteRoom`: drop the room's state entirely.  Defined in
state-manager.js but never invoked by server.js. -/
def deleteRoom (sm : StateManager) (roomId : RoomId) : StateManager :=
  ⟨mapDelete roomId sm.roomStates⟩

/-- `StateManager.getStrokeCount`. -/
def getStrokeCount (sm : StateManager) (roomId : RoomId) : Nat :=
  match mapGet roomId sm.roomStates with
  | none => 0
  | some st => st.strokes.length

/-- The room's undo-redo stack as seen from outside: `[]` when the room
has no state. -/
def undoStackOf (sm : StateManager) (roomId : RoomId) : List (List Stroke) :=
  match mapGet roomId sm.roomStates with
  | none => []
  | some st => st.undoStack

/-! Session Coordinator (`src/unnamed/part_005`, server.js socket
handlers). -/

/-- The `drawing_step` payload sent by a client:
`{ id, start, end, style }`; `id` may be absent or empty. -/
structure DrawData where
  id : Option GestureId
  start : Point
  endPoint : Point
  style : Style
deriving Repr, DecidableEq

/-- Inbound socket events the server handles. -/
inductive Event where
  | joinRoom (roomId : RoomId)
  | leaveRoom
  | drawingStep (data : DrawData)
  | cursorMove (pos : Point)
  | undo
  | redo
  | clearCanvas
  | disconnect
deriving Repr, DecidableEq

/-- Outbound payloads the server emits. -/
inductive Payload where
  | loadHistory (h : List Stroke)
  | usersUpdate (us : List UserData)
  | userDisconnected (uid : UserId)
  | remoteDrawing (s : Stroke)
  | cursorUpdate (uid : UserId) (cursor : Point) (color : String)
  | strokeRemoved (gid : GestureId)
  | strokeRestored (ss : List Stroke)
  | canvasCleared
deriving Repr, DecidableEq

/-- A socket.io broadcast target: `io.to(room)` (everyone joined to the
room), `socket.to(room)` (everyone joined to the room except the sending
socket), or `socket.emit` (the sender alone). -/
inductive Target where
  | toRoomAll (r : RoomId)
  | toRoomExceptSender (r : RoomId)
  | toSender
deriving Repr, DecidableEq

/-- One emitted message: a target and a payload. -/
structure Emit where
  target : Target
  payload : Payload
deriving Repr, DecidableEq

/-- Shared server stores: the `roomManager` and `stateManager` instances. -/
structure ServerState where
  roomManager : RoomManager
  stateManager : StateManager
deriving Repr, DecidableEq

/-- Per-socket server-side state: `socket.id`, `socket.userData`,
`socket.currentRoom`. -/
structure SocketState where
  sid : UserId
  userData : UserData
  currentRoom : Option RoomId
deriving Repr, DecidableEq

/-- Result of handling one inbound event: updated stores, updated socket
state, and the messages emitted, in order. -/
structure StepResult where
  state : ServerState
  sock : SocketState
  emits : List Emit
deriving Repr, DecidableEq

/-- The stroke id chosen in the `drawing_step` handler:
`data.id || socket.id-timestamp` — the fallback fires when `data.id` is
absent or the empty string (both falsy in JS). -/
def strokeIdOf (sid : UserId) (dataId : Option GestureId) (now : Nat) : GestureId :=
  match dataId with
  | none => sid ++ "-" ++ toString now
  | some i => if i = "" then sid ++ "-" ++ toString now else i

/-- One socket handler invocation, translated handler by handler from
server.js; `now` stands for `Date.now()`. -/
def serverStep (ev : Event) (now : Nat) (sock : SocketState) (st : ServerState) :
    StepResult :=
  match ev with
  | .joinRoom roomId =>
    let pre : ServerState × List Emit :=
      match sock.currentRoom with
      | some oldRoom =>
        if oldRoom ≠ roomId then
          let rm' := removeUser st.roomManager oldRoom sock.sid
          ({ st with roomManager := rm' },
           [⟨.toRoomAll oldRoom, .usersUpdate (getRoomUsers rm' oldRoom)⟩,
            ⟨.toRoomAll oldRoom, .userDisconnected sock.sid⟩])
        else (st, [])
      | none => (st, [])
    let rm₂ := addUser pre.1.roomManager roomId sock.sid sock.userData
    let st₂ := { pre.1 with roomManager := rm₂ }
    { state := st₂,
      sock := { sock with currentRoom := some roomId },
      emits := pre.2 ++
        [⟨.toSender, .loadHistory (getHistory st₂.stateManager roomId)⟩,
         ⟨.toRoomAll roomId, .usersUpdate (getRoomUsers rm₂ roomId)⟩] }
  | .leaveRoom =>
    match sock.currentRoom with
    | none => { state := st, sock := sock, emits := [] }
    | some roomId =>
      let rm' := removeUser st.roomManager roomId sock.sid
      { state := { st with roomManager := rm' },
        sock := { sock with currentRoom := none },
        emits := [⟨.toRoomAll roomId, .usersUpdate (getRoomUsers rm' roomId)⟩,
                  ⟨.toRoomAll roomId, .userDisconnected sock.sid⟩] }
  | .drawingStep data =>
    match sock.currentRoom with
    | none => { state := st, sock := sock, emits := [] }
    | some roomId =>
      let stroke : Stroke :=
        { userId := sock.sid, start := data.start, endPoint := data.endPoint,
          style := data.style, timestamp := now,
          id := strokeIdOf sock.sid data.id now }
      { state := { st with stateManager := addStroke st.stateManager roomId stroke },
        sock := sock,
        emits := [⟨.toRoomExceptSender roomId, .remoteDrawing stroke⟩] }
  | .cursorMove pos =>
    match sock.currentRoom with
    | none => { state := st, sock := sock, emits := [] }
    | some roomId =>
      { state := { st with roomManager := updateUserCursor st.roomManager roomId sock.sid pos },
        sock := { sock with userData := { sock.userData with cursor := pos } },
        emits := [⟨.toRoomExceptSender roomId,
                   .cursorUpdate sock.sid pos sock.userData.color⟩] }
  | .undo =>
    match sock.currentRoom with
    | none => { state := st, sock := sock, emits := [] }
    | some roomId =>
      let res := undoStroke st.stateManager roomId
      { state := { st with stateManager := res.1 },
        sock := sock,
        emits :=
          match res.2 with
          | some gid => [⟨.toRoomAll roomId, .strokeRemoved gid⟩]
          | none => [] }
  | .redo =>
    match sock.currentRoom with
    | none => { state := st, sock := sock, emits := [] }
    | some roomId =>
      let res := redoStroke st.stateManager roomId
      { state := { st with stateManager := res.1 },
        sock := sock,
        emits :=
          match res.2 with
          | some ss => [⟨.toRoomAll roomId, .strokeRestored ss⟩]
          | none => [] }
  | .clearCanvas =>
    match sock.currentRoom with
    | none => { state := st, sock := sock, emits := [] }
    | some roomId =>
      { state := { st with stateManager := clearRoom st.stateManager roomId },
        sock := sock,
        emits := [⟨.toRoomAll roomId, .canvasCleared⟩] }
  | .disconnect =>
    match sock.currentRoom with
    | none => { state := st, sock := sock, emits := [] }
    | some roomId =>
      let rm' := removeUser st.roomManager roomId sock.sid
      { state := { st with roomManager := rm' },
        sock := sock,
        emits := [⟨.toRoomAll roomId, .usersUpdate (getRoomUsers rm' roomId)⟩,
                  ⟨.toRoomAll roomId, .userDisconnected sock.sid⟩] }

/-- The ids of the sockets joined to a room.  The server keeps socket.io
room membership and the RoomManager in lockstep (`socket.join` with
`addUser`, `socket.leave` / automatic leave on disconnect with
`removeUser`), so membership is read off the registry's user-map keys. -/
def memberIds (rm : RoomManager) (roomId : RoomId) : List UserId :=
  match mapGet roomId rm.rooms with
  | none => []
  | some room => room.users.map Prod.fst

/-- The connection ids a target resolves to: `io.to(r)` reaches every
member of the room, `socket.to(r)` every member except the sender,
`socket.emit` the sender alone. -/
def recipients (rm : RoomManager) (sender : UserId) : Target → List UserId
  | .toRoomAll r => memberIds rm r
  | .toRoomExceptSender r => (memberIds rm r).filter (fun u => ¬ u = sender)
  | .toSender => [sender]

/-! Association-list lemmas for the JS `Map` embedding. -/

theorem mapGet_mapSet_self {α β : Type} [DecidableEq α] (k : α) (v : β)
    (m : List (α × β)) : mapGet k (mapSet k v m) = some v := by
  induction m with
  | nil => simp [mapSet, mapGet]
  | cons p rest ih =>
    obtain ⟨k', v'⟩ := p
    by_cases h : k' = k <;> simp [mapSet, mapGet, h, ih]

theorem mapSet_eq_of_mapGet {α β : Type} [DecidableEq α] {k : α} {v : β}
    {m : List (α × β)} (h : mapGet k m = some v) : mapSet k v m = m := by
  induction m with
  | nil => simp [mapGet] at h
  | cons p rest ih =>
    obtain ⟨k', v'⟩ := p
    by_cases hk : k' = k
    · simp [mapGet, hk] at h
      simp [mapSet, hk, h]
    · simp [mapGet, hk] at h
      simp [mapSet, hk, ih h]

theorem mapSet_mapSet_self {α β : Type} [DecidableEq α] (k : α) (v v' : β)
    (m : List (α × β)) : mapSet k v (mapSet k v' m) = mapSet k v m := by
  induction m with
  | nil => simp [mapSet]
  | cons p rest ih =>
    obtain ⟨k', w⟩ := p
    by_cases h : k' = k <;> simp [mapSet, h, ih]

theorem mapDelete_of_mapGet_none {α β : Type} [DecidableEq α] {k : α}
    {m : List (α × β)} (h : mapGet k m = none) : mapDelete k m = m := by
  induction m with
  | nil => simp [mapDelete]
  | cons p rest ih =>
    obtain ⟨k', v'⟩ := p
    by_cases hk : k' = k
    · simp [mapGet, hk] at h
    · simp [mapGet, hk] at h
      simp [mapDelete, hk, ih h]

theorem keys_mapSet_of_mem {α β : Type} [DecidableEq α] {k : α} {m : List (α × β)}
    (v : β) (h : (mapGet k m).isSome) :
    (mapSet k v m).map Prod.fst = m.map Prod.fst := by
  induction m with
  | nil => simp [mapGet] at h
  | cons p rest ih =>
    obtain ⟨k', v'⟩ := p
    by_cases hk : k' = k
    · simp [mapSet, hk]
    · simp [mapGet, hk] at h
      simp [mapSet, hk, ih h]

theorem mapHas_eq_false_iff {α β : Type} [DecidableEq α] (k : α) (m : List (α × β)) :
    mapHas k m = false ↔ mapGet k m = none := by
  cases h : mapGet k m <;> simp [mapHas, h]

theorem mapHas_eq_true_iff {α β : Type} [DecidableEq α] (k : α) (m : List (α × β)) :
    mapHas k m = true ↔ (mapGet k m).isSome := by
  simp [mapHas]

theorem mapGet_mapSet_ne {α β : Type} [DecidableEq α] {k k' : α} (v : β)
    (m : List (α × β)) (h : k' ≠ k) : mapGet k' (mapSet k v m) = mapGet k' m := by
  induction m with
  | nil => simp [mapSet, mapGet, Ne.symm h]
  | cons p rest ih =>
    obtain ⟨k₀, v₀⟩ := p
    by_cases hk : k₀ = k
    · simp [mapSet, mapGet, hk, Ne.symm h]
    · simp [mapSet, mapGet, hk, ih]

theorem mapGet_mapDelete_ne {α β : Type} [DecidableEq α] {k k' : α}
    (m : List (α × β)) (h : k' ≠ k) : mapGet k' (mapDelete k m) = mapGet k' m := by
  induction m with
  | nil => simp [mapDelete]
  | cons p rest ih =>
    obtain ⟨k₀, v₀⟩ := p
    by_cases hk : k₀ = k
    · simp [mapDelete, mapGet, hk, Ne.symm h]
    · simp [mapDelete, mapGet, hk, ih]

theorem mapGet_isSome_iff_mem_keys {α β : Type} [DecidableEq α] (k : α)
    (m : List (α × β)) : (mapGet k m).isSome ↔ k ∈ m.map Prod.fst := by
  induction m with
  | nil => simp [mapGet]
  | cons p rest ih =>
    obtain ⟨k₀, v₀⟩ := p
    by_cases hk : k₀ = k
    · simp [mapGet, hk]
    · simp [mapGet, hk, Ne.symm hk, ih]

theorem keys_mapSet_of_not_mem {α β : Type} [DecidableEq α] {k : α} (v : β)
    {m : List (α × β)} (h : mapGet k m = none) :
    (mapSet k v m).map Prod.fst = m.map Prod.fst ++ [k] := by
  induction m with
  | nil => simp [mapSet]
  | cons p rest ih =>
    obtain ⟨k₀, v₀⟩ := p
    by_cases hk : k₀ = k
    · simp [mapGet, hk] at h
    · simp [mapGet, hk] at h
      simp [mapSet, hk, ih h]

theorem keys_mapDelete_sublist {α β : Type} [DecidableEq α] (k : α)
    (m : List (α × β)) :
    ((mapDelete k m).map Prod.fst).Sublist (m.map Prod.fst) := by
  induction m with
  | nil => simp [mapDelete]
  | cons p rest ih =>
    obtain ⟨k₀, v₀⟩ := p
    by_cases hk : k₀ = k
    · simp [mapDelete, hk]
    · simpa [mapDelete, hk] using ih

theorem mapGet_mapDelete_self_of_nodup {α β : Type} [DecidableEq α] {k : α}
    {m : List (α × β)} (h : (m.map Prod.fst).Nodup) :
    mapGet k (mapDelete k m) = none := by
  induction m with
  | nil => simp [mapDelete, mapGet]
  | cons p rest ih =>
    obtain ⟨k₀, v₀⟩ := p
    simp only [List.map_cons, List.nodup_cons] at h
    by_cases hk : k₀ = k
    · subst hk
      simp only [mapDelete, if_pos rfl]
      cases hg : mapGet k₀ rest with
      | none => exact hg
      | some w =>
        exact absurd ((mapGet_isSome_iff_mem_keys k₀ rest).mp (by simp [hg])) h.1
    · simp [mapDelete, mapGet, hk, ih h.2]

theorem mapSet_ne_nil {α β : Type} [DecidableEq α] (k : α) (v : β)
    (m : List (α × β)) : mapSet k v m ≠ [] := by
  cases m with
  | nil => simp [mapSet]
  | cons p rest =>
    obtain ⟨k₀, v₀⟩ := p
    by_cases hk : k₀ = k <;> simp [mapSet, hk]

/-! History Store claims. -/

/-- C4: after `append(R, s)` the redo stack of R is empty, so an
immediately following `redoLast(R)` returns none (leaving the store as the
append left it), even if one or more gestures were undone before the
append — `addStroke` unconditionally resets `state.undoStack = []`. -/
theorem c4_append_clears_redo_stack (sm : StateManager) (roomId : RoomId)
    (s : Stroke) :
    undoStackOf (addStroke sm roomId s) roomId = [] ∧
    redoStroke (addStroke sm roomId s) roomId = (addStroke sm roomId s, none) := by
  unfold addStroke undoStackOf redoStroke
  simp [mapGet_mapSet_self]

/-- C3: on a room whose history has a tail Segment `t`, `undoStroke`
returns `t`'s gesture id, removes from the sequence exactly the Segments
sharing that id (wherever they sit, whoever authored them), and pushes the
removed Segments, in their original relative order, onto the redo stack on
top of the existing entries; on a room with no Segments it returns none
and changes nothing. -/
theorem c3_undo_removes_tail_gesture (sm : StateManager) (roomId : RoomId) :
    (∀ t, (getHistory sm roomId).getLast? = some t →
      (undoStroke sm roomId).2 = some t.id ∧
      getHistory (undoStroke sm roomId).1 roomId
        = (getHistory sm roomId).filter (fun s => ¬ s.id = t.id) ∧
      undoStackOf (undoStroke sm roomId).1 roomId
        = undoStackOf sm roomId
            ++ [(getHistory sm roomId).filter (fun s => s.id = t.id)]) ∧
    (getHistory sm roomId = [] → undoStroke sm roomId = (sm, none)) := by
  cases hget : mapGet roomId sm.roomStates with
  | none =>
    constructor
    · intro t ht
      simp [getHistory, hget] at ht
    · intro _
      simp [undoStroke, hget]
  | some st =>
    constructor
    · intro t ht
      simp only [getHistory, hget] at ht ⊢
      simp [undoStroke, undoStackOf, getHistory, hget, ht, mapGet_mapSet_self]
    · intro h
      simp only [getHistory, hget] at h
      simp [undoStroke, hget, h]

/-- C5: when the redo stack of R has a most-recently pushed entry `e`,
`redoStroke` returns `e`, appends `e`'s Segments to the tail of R's
history in their preserved order, and pops exactly that entry, leaving the
remaining stack entries intact; when the redo stack is empty it returns
none and leaves the store unchanged. -/
theorem c5_redo_restores_most_recent (sm : StateManager) (roomId : RoomId) :
    (∀ e, (undoStackOf sm roomId).getLast? = some e →
      (redoStroke sm roomId).2 = some e ∧
      getHistory (redoStroke sm roomId).1 roomId = getHistory sm roomId ++ e ∧
      undoStackOf (redoStroke sm roomId).1 roomId
        = (undoStackOf sm roomId).dropLast) ∧
    (undoStackOf sm roomId = [] → redoStroke sm roomId = (sm, none)) := by
  cases hget : mapGet roomId sm.roomStates with
  | none =>
    constructor
    · intro e he
      simp [undoStackOf, hget] at he
    · intro _
      simp [redoStroke, hget]
  | some st =>
    constructor
    · intro e he
      simp only [undoStackOf, hget] at he ⊢
      simp [redoStroke, getHistory, undoStackOf, hget, he, mapGet_mapSet_self]
    · intro h
      simp only [undoStackOf, hget] at h
      simp [redoStroke, hget, h]

/-- Fixture Segment for concrete evaluations: author, gesture id,
timestamp. -/
def wSeg (uid : UserId) (gid : GestureId) (ts : Nat) : Stroke :=
  ⟨uid, ⟨0, 0⟩, ⟨10, 10⟩, ⟨"#000000", 5, false⟩, ts, gid⟩

/-- Fixture store for the C3 witness: history `g1, g2, g1` (the `g1`
Segments interleaved around `g2`) and one pre-existing redo entry. -/
def wSmUndo : StateManager :=
  ⟨[("R", ⟨[wSeg "A" "g1" 1, wSeg "B" "g2" 2, wSeg "A" "g1" 3],
           [[wSeg "A" "g0" 0]]⟩)]⟩

/-- C3 witness: on `wSmUndo` the tail Segment's gesture `g1` is removed
wherever it sits, the interleaved `g2` Segment stays, and the removed pair
lands on top of the redo stack. -/
theorem c3_undo_removes_tail_gesture_witness :
    (getHistory wSmUndo "R").getLast? = some (wSeg "A" "g1" 3) ∧
    ((undoStroke wSmUndo "R").2 = some (wSeg "A" "g1" 3).id ∧
     getHistory (undoStroke wSmUndo "R").1 "R"
       = (getHistory wSmUndo "R").filter (fun s => ¬ s.id = (wSeg "A" "g1" 3).id) ∧
     undoStackOf (undoStroke wSmUndo "R").1 "R"
       = undoStackOf wSmUndo "R"
           ++ [(getHistory wSmUndo "R").filter (fun s => s.id = (wSeg "A" "g1" 3).id)]) :=
  ⟨by decide, (c3_undo_removes_tail_gesture wSmUndo "R").1 _ (by decide)⟩

/-- Fixture store for the C5 witness: one committed Segment and two redo
entries, the top one a two-Segment gesture. -/
def wSmRedo : StateManager :=
  ⟨[("R", ⟨[wSeg "A" "g1" 1],
           [[wSeg "B" "g2" 2], [wSeg "B" "g3" 3, wSeg "B" "g3" 4]]⟩)]⟩

/-- C5 witness: on `wSmRedo`, redo pops exactly the top entry, re-appends
its two Segments in order, and leaves the older entry in place. -/
theorem c5_redo_restores_most_recent_witness :
    (undoStackOf wSmRedo "R").getLast? = some [wSeg "B" "g3" 3, wSeg "B" "g3" 4] ∧
    ((redoStroke wSmRedo "R").2 = some [wSeg "B" "g3" 3, wSeg "B" "g3" 4] ∧
     getHistory (redoStroke wSmRedo "R").1 "R"
       = getHistory wSmRedo "R" ++ [wSeg "B" "g3" 3, wSeg "B" "g3" 4] ∧
     undoStackOf (redoStroke wSmRedo "R").1 "R"
       = (undoStackOf wSmRedo "R").dropLast) :=
  ⟨by decide, (c5_redo_restores_most_recent wSmRedo "R").1 _ (by decide)⟩

/-- Fixture store for the C2 counterexample: gesture `g1`'s two Segments
interleave non-contiguously around gesture `g2`'s Segment. -/
def wSmRound : StateManager :=
  ⟨[("R", ⟨[wSeg "A" "g1" 1, wSeg "B" "g2" 2, wSeg "A" "g1" 3], []⟩)]⟩

/-- C2 counterexample: with history `g1, g2, g1`, undo removes both `g1`
Segments and redo re-appends them at the tail, yielding `g2, g1, g1` — not
the pre-undo sequence.  The round-trip does not restore the original order
when the undone gesture was interleaved non-contiguously. -/
theorem c2_roundtrip_counterexample :
    getHistory (redoStroke (undoStroke wSmRound "R").1 "R").1 "R"
      ≠ getHistory wSmRound "R" ∧
    getHistory (redoStroke (undoStroke wSmRound "R").1 "R").1 "R"
      = [wSeg "B" "g2" 2, wSeg "A" "g1" 1, wSeg "A" "g1" 3] := by
  constructor <;> decide

/-- C2 amended: for a room whose history splits as `l₁ ++ l₂` with the
tail gesture's Segments `l₂` forming a contiguous suffix (no Segment of
another gesture after or between them), `undoStroke` immediately followed
by `redoStroke` restores the whole store — history in its exact pre-undo
order included — to its pre-undo value. -/
theorem c2_undo_redo_roundtrip (sm : StateManager) (roomId : RoomId)
    (st : RoomState) (hst : mapGet roomId sm.roomStates = some st)
    (l₁ l₂ : List Stroke) (g : GestureId)
    (hsplit : st.strokes = l₁ ++ l₂) (hne : l₂ ≠ [])
    (h₁ : ∀ s ∈ l₁, ¬ s.id = g) (h₂ : ∀ s ∈ l₂, s.id = g) :
    (redoStroke (undoStroke sm roomId).1 roomId).1 = sm := by
  have hlast : st.strokes.getLast? = some (l₂.getLast hne) := by
    rw [hsplit, List.getLast?_append_of_ne_nil l₁ hne]
    exact List.getLast?_eq_getLast l₂ hne
  have hgid : (l₂.getLast hne).id = g := h₂ _ (List.getLast_mem hne)
  have hkeep : st.strokes.filter (fun s => !decide (s.id = (l₂.getLast hne).id)) = l₁ := by
    rw [hsplit, List.filter_append]
    have e₁ : l₁.filter (fun s => !decide (s.id = (l₂.getLast hne).id)) = l₁ :=
      List.filter_eq_self.mpr (fun a ha => by
        simp [hgid, h₁ a ha])
    have e₂ : l₂.filter (fun s => !decide (s.id = (l₂.getLast hne).id)) = [] :=
      List.filter_eq_nil_iff.mpr (fun a ha => by
        simp [hgid, h₂ a ha])
    rw [e₁, e₂, List.append_nil]
  have hrem : st.strokes.filter (fun s => s.id = (l₂.getLast hne).id) = l₂ := by
    rw [hsplit, List.filter_append]
    have e₁ : l₁.filter (fun s => s.id = (l₂.getLast hne).id) = [] :=
      List.filter_eq_nil_iff.mpr (fun a ha => by
        simp [hgid, h₁ a ha])
    have e₂ : l₂.filter (fun s => s.id = (l₂.getLast hne).id) = l₂ :=
      List.filter_eq_self.mpr (fun a ha => by
        simp [hgid, h₂ a ha])
    rw [e₁, e₂, List.nil_append]
  have hundo : (undoStroke sm roomId).1
      = ⟨mapSet roomId ⟨l₁, st.undoStack ++ [l₂]⟩ sm.roomStates⟩ := by
    simp [undoStroke, hst, hlast, hkeep, hrem]
  rw [hundo]
  have hget₂ : mapGet roomId (mapSet roomId
      (⟨l₁, st.undoStack ++ [l₂]⟩ : RoomState) sm.roomStates)
      = some ⟨l₁, st.undoStack ++ [l₂]⟩ := mapGet_mapSet_self _ _ _
  simp only [redoStroke, hget₂, List.getLast?_concat, List.dropLast_concat]
  rw [mapSet_mapSet_self]
  have hst' : (⟨l₁ ++ l₂, st.undoStack⟩ : RoomState) = st := by
    cases st
    simp_all
  rw [hst', mapSet_eq_of_mapGet hst]

/-- Fixture store for the C2 witness: gesture `g2`'s Segments form a
contiguous suffix after gesture `g1`'s Segment. -/
def wSmRoundOk : StateManager :=
  ⟨[("R", ⟨[wSeg "A" "g1" 1, wSeg "B" "g2" 2, wSeg "B" "g2" 3],
           [[wSeg "A" "g0" 0]]⟩)]⟩

/-- C2 witness: on `wSmRoundOk` (suffix-contiguous tail gesture `g2`) the
undo-then-redo round-trip restores the store exactly. -/
theorem c2_undo_redo_roundtrip_witness :
    mapGet "R" wSmRoundOk.roomStates
      = some ⟨[wSeg "A" "g1" 1, wSeg "B" "g2" 2, wSeg "B" "g2" 3],
              [[wSeg "A" "g0" 0]]⟩ ∧
    (redoStroke (undoStroke wSmRoundOk "R").1 "R").1 = wSmRoundOk :=
  ⟨by decide,
   c2_undo_redo_roundtrip wSmRoundOk "R"
     ⟨[wSeg "A" "g1" 1, wSeg "B" "g2" 2, wSeg "B" "g2" 3], [[wSeg "A" "g0" 0]]⟩
     (by decide) [wSeg "A" "g1" 1] [wSeg "B" "g2" 2, wSeg "B" "g2" 3] "g2"
     (by decide) (by decide) (by decide) (by decide)⟩

/-! Membership Registry claims. -/

/-- The users map of a room as seen from outside: `[]` when the room is
unknown. -/
def usersOf (rm : RoomManager) (roomId : RoomId) : List (UserId × UserData) :=
  match mapGet roomId rm.rooms with
  | none => []
  | some room => room.users

/-- C8: every Membership Registry operation is total (in this embedding
every operation is a total function, so none can raise): `removeUser` and
`updateUserCursor` leave the registry unchanged when the room is unknown,
or when the room is known but the connection is not (the room being
non-empty, as every reachable room is); `removeUser` deletes the room when
its user map becomes empty; `getRoomUsers` returns `[]` for an unknown
room. -/
theorem c8_registry_operations_total (rm : RoomManager) (roomId : RoomId)
    (userId : UserId) (pos : Point)
    (hnodup : (rm.rooms.map Prod.fst).Nodup) :
    (roomExists rm roomId = false →
      removeUser rm roomId userId = rm ∧
      updateUserCursor rm roomId userId pos = rm ∧
      getRoomUsers rm roomId = []) ∧
    (∀ room, mapGet roomId rm.rooms = some room →
      mapGet userId room.users = none → room.users ≠ [] →
      removeUser rm roomId userId = rm ∧
      updateUserCursor rm roomId userId pos = rm) ∧
    (∀ room, mapGet roomId rm.rooms = some room →
      mapDelete userId room.users = [] →
      roomExists (removeUser rm roomId userId) roomId = false) := by
  refine ⟨?_, ?_, ?_⟩
  · intro h
    have hget : mapGet roomId rm.rooms = none := (mapHas_eq_false_iff _ _).mp h
    exact ⟨by simp [removeUser, hget], by simp [updateUserCursor, hget],
           by simp [getRoomUsers, hget]⟩
  · intro room hroom huser hne
    have hdel : mapDelete userId room.users = room.users :=
      mapDelete_of_mapGet_none huser
    constructor
    · simp only [removeUser, hroom, hdel]
      rw [if_neg (by simpa [List.length_eq_zero] using hne)]
      rw [show ({ users := room.users } : Room) = room from rfl,
          mapSet_eq_of_mapGet hroom]
    · simp [updateUserCursor, hroom, huser]
  · intro room hroom hdel
    simp [removeUser, hroom, hdel, roomExists, mapHas_eq_false_iff,
          mapGet_mapDelete_self_of_nodup hnodup]

/-- Fixture registry with one room `R` holding the single user `A`. -/
def wRm : RoomManager :=
  ⟨[("R", ⟨[("A", ⟨"A", "#111111", ⟨0, 0⟩⟩)]⟩)]⟩

/-- C8 witness: on `wRm`, leave/cursor/list are no-ops or empty for the
unknown room `Q`, leave is a no-op for the unknown connection `B`, and
removing the last user `A` deletes room `R`. -/
theorem c8_registry_operations_total_witness :
    (wRm.rooms.map Prod.fst).Nodup ∧
    removeUser wRm "Q" "A" = wRm ∧
    updateUserCursor wRm "Q" "A" ⟨1, 1⟩ = wRm ∧
    getRoomUsers wRm "Q" = [] ∧
    removeUser wRm "R" "B" = wRm ∧
    roomExists (removeUser wRm "R" "A") "R" = false := by
  have hq := c8_registry_operations_total wRm "Q" "A" ⟨1, 1⟩ (by decide)
  have hb := c8_registry_operations_total wRm "R" "B" ⟨1, 1⟩ (by decide)
  have ha := c8_registry_operations_total wRm "R" "A" ⟨1, 1⟩ (by decide)
  exact ⟨by decide, (hq.1 (by decide)).1, (hq.1 (by decide)).2.1,
         (hq.1 (by decide)).2.2,
         (hb.2.1 ⟨[("A", ⟨"A", "#111111", ⟨0, 0⟩⟩)]⟩ (by decide) (by decide)
           (by decide)).1,
         ha.2.2 ⟨[("A", ⟨"A", "#111111", ⟨0, 0⟩⟩)]⟩ (by decide) (by decide)⟩

/-- C9: `addUser` for an already-present connection keeps the room's
member-key sequence unchanged (the connection stays at its position and
appears exactly once, given Map key uniqueness), stores the new
presentation data under the connection in place, and replaying the same
`addUser` twice yields the same registry as calling it once (the replay
part holds unconditionally). -/
theorem c9_join_idempotent (rm : RoomManager) (roomId : RoomId)
    (userId : UserId) (d : UserData)
    (hmem : (mapGet userId (usersOf rm roomId)).isSome)
    (hnodup : ((usersOf rm roomId).map Prod.fst).Nodup) :
    (usersOf (addUser rm roomId userId d) roomId).map Prod.fst
      = (usersOf rm roomId).map Prod.fst ∧
    ((usersOf (addUser rm roomId userId d) roomId).map Prod.fst).count userId = 1 ∧
    mapGet userId (usersOf (addUser rm roomId userId d) roomId) = some d ∧
    addUser (addUser rm roomId userId d) roomId userId d
      = addUser rm roomId userId d := by
  obtain ⟨room, hroom⟩ : ∃ room, mapGet roomId rm.rooms = some room := by
    cases hg : mapGet roomId rm.rooms with
    | none => simp [usersOf, hg, mapGet] at hmem
    | some r => exact ⟨r, rfl⟩
  have husers : usersOf rm roomId = room.users := by simp [usersOf, hroom]
  rw [husers] at hmem hnodup
  have hA : addUser rm roomId userId d
      = ⟨mapSet roomId ⟨mapSet userId d room.users⟩ rm.rooms⟩ := by
    simp [addUser, mapHas, hroom]
  have husersA : usersOf (addUser rm roomId userId d) roomId
      = mapSet userId d room.users := by
    rw [hA]; simp [usersOf, mapGet_mapSet_self]
  have hkeys : (mapSet userId d room.users).map Prod.fst = room.users.map Prod.fst :=
    keys_mapSet_of_mem d hmem
  refine ⟨?_, ?_, ?_, ?_⟩
  · rw [husersA, husers, hkeys]
  · rw [husersA, hkeys]
    exact List.count_eq_one_of_mem hnodup ((mapGet_isSome_iff_mem_keys _ _).mp hmem)
  · rw [husersA]; exact mapGet_mapSet_self _ _ _
  · rw [hA]
    simp [addUser, mapHas, mapGet_mapSet_self, mapSet_mapSet_self]

/-- C9 witness: re-joining `A` (already in `wRm`'s room `R`) with fresh
presentation data keeps the key sequence `[A]`, updates the data in place,
and replaying the join is the identity on the result. -/
theorem c9_join_idempotent_witness :
    (mapGet "A" (usersOf wRm "R")).isSome ∧
    ((usersOf (addUser wRm "R" "A" ⟨"A", "#222222", ⟨5, 5⟩⟩) "R").map Prod.fst
       = (usersOf wRm "R").map Prod.fst ∧
     ((usersOf (addUser wRm "R" "A" ⟨"A", "#222222", ⟨5, 5⟩⟩) "R").map Prod.fst).count "A" = 1 ∧
     mapGet "A" (usersOf (addUser wRm "R" "A" ⟨"A", "#222222", ⟨5, 5⟩⟩) "R")
       = some ⟨"A", "#222222", ⟨5, 5⟩⟩ ∧
     addUser (addUser wRm "R" "A" ⟨"A", "#222222", ⟨5, 5⟩⟩) "R" "A" ⟨"A", "#222222", ⟨5, 5⟩⟩
       = addUser wRm "R" "A" ⟨"A", "#222222", ⟨5, 5⟩⟩) :=
  ⟨by decide, c9_join_idempotent wRm "R" "A" ⟨"A", "#222222", ⟨5, 5⟩⟩
    (by decide) (by decide)⟩

/-- One Membership Registry operation: join, leave, or cursor update. -/
inductive RegOp where
  | join (r : RoomId) (c : UserId) (d : UserData)
  | leave (r : RoomId) (c : UserId)
  | cursor (r : RoomId) (c : UserId) (p : Point)
deriving Repr, DecidableEq

/-- Apply one registry operation. -/
def applyRegOp (rm : RoomManager) : RegOp → RoomManager
  | .join r c d => addUser rm r c d
  | .leave r c => removeUser rm r c
  | .cursor r c p => updateUserCursor rm r c p

/-- Apply a sequence of registry operations to the empty registry. -/
def applyRegOps (ops : List RegOp) : RoomManager :=
  ops.foldl applyRegOp RoomManager.empty

/-- Registry well-formedness: room keys are unique (a `Map` invariant) and
no stored room has an empty user map. -/
def RegInv (rm : RoomManager) : Prop :=
  (rm.rooms.map Prod.fst).Nodup ∧
  ∀ r room, mapGet r rm.rooms = some room → room.users ≠ []

theorem regInv_addUser {rm : RoomManager} (roomId : RoomId) (userId : UserId)
    (d : UserData) (h : RegInv rm) : RegInv (addUser rm roomId userId d) := by
  obtain ⟨hnd, hne⟩ := h
  cases hhas : mapGet roomId rm.rooms with
  | some room =>
    have hA : addUser rm roomId userId d
        = ⟨mapSet roomId ⟨mapSet userId d room.users⟩ rm.rooms⟩ := by
      simp [addUser, mapHas, hhas]
    rw [hA]
    constructor
    · rw [keys_mapSet_of_mem _ (by simp [hhas])]
      exact hnd
    · intro r room' hr
      by_cases hrr : r = roomId
      · subst hrr
        rw [mapGet_mapSet_self] at hr
        cases hr
        exact mapSet_ne_nil _ _ _
      · rw [mapGet_mapSet_ne _ _ hrr] at hr
        exact hne r room' hr
  | none =>
    have hA : addUser rm roomId userId d
        = ⟨mapSet roomId ⟨mapSet userId d ([] : List (UserId × UserData))⟩
            (mapSet roomId ⟨[]⟩ rm.rooms)⟩ := by
      simp [addUser, mapHas, hhas, mapGet_mapSet_self]
    rw [hA]
    constructor
    · rw [keys_mapSet_of_mem _ (by simp [mapGet_mapSet_self]),
          keys_mapSet_of_not_mem _ hhas]
      have : roomId ∉ rm.rooms.map Prod.fst := by
        rw [← mapGet_isSome_iff_mem_keys, hhas]
        simp
      simp [List.nodup_append, hnd, this]
    · intro r room' hr
      by_cases hrr : r = roomId
      · subst hrr
        rw [mapGet_mapSet_self] at hr
        cases hr
        exact mapSet_ne_nil _ _ _
      · rw [mapGet_mapSet_ne _ _ hrr, mapGet_mapSet_ne _ _ hrr] at hr
        exact hne r room' hr

theorem regInv_removeUser {rm : RoomManager} (roomId : RoomId) (userId : UserId)
    (h : RegInv rm) : RegInv (removeUser rm roomId userId) := by
  obtain ⟨hnd, hne⟩ := h
  cases hhas : mapGet roomId rm.rooms with
  | none => simpa [removeUser, hhas] using ⟨hnd, hne⟩
  | some room =>
    by_cases hlen : (mapDelete userId room.users).length = 0
    · have hR : removeUser rm roomId userId = ⟨mapDelete roomId rm.rooms⟩ := by
        simp [removeUser, hhas, hlen]
      rw [hR]
      constructor
      · exact hnd.sublist (keys_mapDelete_sublist roomId rm.rooms)
      · intro r room' hr
        by_cases hrr : r = roomId
        · subst hrr
          rw [mapGet_mapDelete_self_of_nodup hnd] at hr
          cases hr
        · rw [mapGet_mapDelete_ne _ hrr] at hr
          exact hne r room' hr
    · have hR : removeUser rm roomId userId
          = ⟨mapSet roomId ⟨mapDelete userId room.users⟩ rm.rooms⟩ := by
        simp [removeUser, hhas, hlen]
      rw [hR]
      constructor
      · rw [keys_mapSet_of_mem _ (by simp [hhas])]
        exact hnd
      · intro r room' hr
        by_cases hrr : r = roomId
        · subst hrr
          rw [mapGet_mapSet_self] at hr
          cases hr
          simpa [List.length_eq_zero] using hlen
        · rw [mapGet_mapSet_ne _ _ hrr] at hr
          exact hne r room' hr

theorem regInv_updateUserCursor {rm : RoomManager} (roomId : RoomId)
    (userId : UserId) (p : Point) (h : RegInv rm) :
    RegInv (updateUserCursor rm roomId userId p) := by
  obtain ⟨hnd, hne⟩ := h
  cases hhas : mapGet roomId rm.rooms with
  | none => simpa [updateUserCursor, hhas] using ⟨hnd, hne⟩
  | some room =>
    cases huser : mapGet userId room.users with
    | none => simpa [updateUserCursor, hhas, huser] using ⟨hnd, hne⟩
    | some user =>
      have hU : updateUserCursor rm roomId userId p
          = ⟨mapSet roomId ⟨mapSet userId { user with cursor := p } room.users⟩
              rm.rooms⟩ := by
        simp [updateUserCursor, hhas, huser]
      rw [hU]
      constructor
      · rw [keys_mapSet_of_mem _ (by simp [hhas])]
        exact hnd
      · intro r room' hr
        by_cases hrr : r = roomId
        · subst hrr
          rw [mapGet_mapSet_self] at hr
          cases hr
          exact mapSet_ne_nil _ _ _
        · rw [mapGet_mapSet_ne _ _ hrr] at hr
          exact hne r room' hr

theorem regInv_applyRegOp (rm : RoomManager) (op : RegOp) (h : RegInv rm) :
    RegInv (applyRegOp rm op) := by
  cases op with
  | join r c d => exact regInv_addUser r c d h
  | leave r c => exact regInv_removeUser r c h
  | cursor r c p => exact regInv_updateUserCursor r c p h

theorem regInv_applyRegOps (ops : List RegOp) : RegInv (applyRegOps ops) := by
  have aux : ∀ (l : List RegOp) (rm : RoomManager), RegInv rm →
      RegInv (l.foldl applyRegOp rm) := by
    intro l
    induction l with
    | nil => intro rm h; exact h
    | cons op rest ih =>
      intro rm h
      exact ih _ (regInv_applyRegOp rm op h)
  refine aux ops RoomManager.empty ⟨by simp [RoomManager.empty], ?_⟩
  intro r room hr
  simp [RoomManager.empty, mapGet] at hr

/-- C10: the Membership Registry never contains an empty room — for every
sequence of join/leave/updateCursor operations applied to the empty
registry, a room that exists has a non-zero user count, and the member
list of a room is non-empty exactly when the room exists. -/
theorem c10_no_empty_rooms (ops : List RegOp) (roomId : RoomId) :
    (roomExists (applyRegOps ops) roomId = true →
      getRoomUserCount (applyRegOps ops) roomId ≠ 0) ∧
    (getRoomUsers (applyRegOps ops) roomId ≠ []
      ↔ roomExists (applyRegOps ops) roomId = true) := by
  obtain ⟨-, hne⟩ := regInv_applyRegOps ops
  cases hget : mapGet roomId (applyRegOps ops).rooms with
  | none =>
    constructor
    · intro h
      rw [roomExists, mapHas, hget] at h
      simp at h
    · simp [getRoomUsers, roomExists, mapHas, hget]
  | some room =>
    have hru : room.users ≠ [] := hne roomId room hget
    constructor
    · intro _
      simp [getRoomUserCount, hget, List.length_eq_zero, hru]
    · simp [getRoomUsers, roomExists, mapHas, hget, hru]

/-- C10 witness: after `join R A`, room `R` exists with one member; the
theorem instance discharges the existence hypothesis at that input. -/
theorem c10_no_empty_rooms_witness :
    roomExists (applyRegOps [.join "R" "A" ⟨"A", "#111111", ⟨0, 0⟩⟩]) "R" = true ∧
    getRoomUserCount (applyRegOps [.join "R" "A" ⟨"A", "#111111", ⟨0, 0⟩⟩]) "R" ≠ 0 :=
  ⟨by decide,
   (c10_no_empty_rooms [.join "R" "A" ⟨"A", "#111111", ⟨0, 0⟩⟩] "R").1 (by decide)⟩

/-! Session Coordinator claims. -/

theorem memberIds_updateUserCursor (rm : RoomManager) (roomId : RoomId)
    (uid : UserId) (pos : Point) (r : RoomId) :
    memberIds (updateUserCursor rm roomId uid pos) r = memberIds rm r := by
  cases hhas : mapGet roomId rm.rooms with
  | none => simp [updateUserCursor, hhas]
  | some room =>
    cases huser : mapGet uid room.users with
    | none => simp [updateUserCursor, hhas, huser]
    | some user =>
      simp only [updateUserCursor, hhas, huser]
      by_cases hrr : r = roomId
      · subst hrr
        rw [memberIds, memberIds, mapGet_mapSet_self, hhas]
        exact keys_mapSet_of_mem _ (by simp [huser])
      · rw [memberIds, memberIds, mapGet_mapSet_ne _ _ hrr]

/-- C7: a drawing, cursor, undo, redo, or clear event from a connection
with no current room is dropped silently: the stores are untouched, the
socket state is untouched, and nothing is emitted (each handler returns at
its `if (!roomId) return` guard). -/
theorem c7_no_room_drops_silently (st : ServerState) (sock : SocketState)
    (now : Nat) (d : DrawData) (p : Point) (h : sock.currentRoom = none) :
    serverStep (.drawingStep d) now sock st = ⟨st, sock, []⟩ ∧
    serverStep (.cursorMove p) now sock st = ⟨st, sock, []⟩ ∧
    serverStep .undo now sock st = ⟨st, sock, []⟩ ∧
    serverStep .redo now sock st = ⟨st, sock, []⟩ ∧
    serverStep .clearCanvas now sock st = ⟨st, sock, []⟩ := by
  refine ⟨?_, ?_, ?_, ?_, ?_⟩ <;> simp [serverStep, h]

/-- Fixture socket with no current room. -/
def wSockFree : SocketState := ⟨"A", ⟨"A", "#123456", ⟨0, 0⟩⟩, none⟩

/-- Fixture draw payload. -/
def wDraw : DrawData := ⟨some "g1", ⟨0, 0⟩, ⟨10, 10⟩, ⟨"#000000", 5, false⟩⟩

/-- C7 witness: a roomless socket's drawing event leaves the server state,
the socket state, and the wire untouched. -/
theorem c7_no_room_drops_silently_witness :
    serverStep (.drawingStep wDraw) 1 wSockFree ⟨⟨[]⟩, ⟨[]⟩⟩
      = ⟨⟨⟨[]⟩, ⟨[]⟩⟩, wSockFree, []⟩ :=
  (c7_no_room_drops_silently ⟨⟨[]⟩, ⟨[]⟩⟩ wSockFree 1 wDraw ⟨0, 0⟩ (by decide)).1

/-- C6: for a connection with a current room, the `drawing_step` and
`cursor_move` broadcasts (`remote_drawing`, `cursor_update`) resolve to
every member of the room except the sender, while the undo, redo, and
clear broadcasts (`stroke_removed`, `stroke_restored`, `canvas_cleared`)
resolve to every member of the room, the sender included. -/
theorem c6_broadcast_fanout (st : ServerState) (sock : SocketState) (r : RoomId)
    (d : DrawData) (p : Point) (now : Nat)
    (h : sock.currentRoom = some r)
    (hm : sock.sid ∈ memberIds st.roomManager r) :
    (∀ e ∈ (serverStep (.drawingStep d) now sock st).emits,
       (∃ s, e.payload = .remoteDrawing s) ∧
       recipients (serverStep (.drawingStep d) now sock st).state.roomManager
           sock.sid e.target
         = (memberIds st.roomManager r).filter (fun u => ¬ u = sock.sid) ∧
       sock.sid ∉ recipients (serverStep (.drawingStep d) now sock st).state.roomManager
           sock.sid e.target) ∧
    (∀ e ∈ (serverStep (.cursorMove p) now sock st).emits,
       (∃ uid c col, e.payload = .cursorUpdate uid c col) ∧
       recipients (serverStep (.cursorMove p) now sock st).state.roomManager
           sock.sid e.target
         = (memberIds st.roomManager r).filter (fun u => ¬ u = sock.sid) ∧
       sock.sid ∉ recipients (serverStep (.cursorMove p) now sock st).state.roomManager
           sock.sid e.target) ∧
    (∀ e ∈ (serverStep .undo now sock st).emits,
       (∃ g, e.payload = .strokeRemoved g) ∧
       recipients (serverStep .undo now sock st).state.roomManager sock.sid e.target
         = memberIds st.roomManager r ∧
       sock.sid ∈ recipients (serverStep .undo now sock st).state.roomManager
           sock.sid e.target) ∧
    (∀ e ∈ (serverStep .redo now sock st).emits,
       (∃ ss, e.payload = .strokeRestored ss) ∧
       recipients (serverStep .redo now sock st).state.roomManager sock.sid e.target
         = memberIds st.roomManager r ∧
       sock.sid ∈ recipients (serverStep .redo now sock st).state.roomManager
           sock.sid e.target) ∧
    (∀ e ∈ (serverStep .clearCanvas now sock st).emits,
       e.payload = .canvasCleared ∧
       recipients (serverStep .clearCanvas now sock st).state.roomManager
           sock.sid e.target
         = memberIds st.roomManager r ∧
       sock.sid ∈ recipients (serverStep .clearCanvas now sock st).state.roomManager
           sock.sid e.target) := by
  refine ⟨?_, ?_, ?_, ?_, ?_⟩
  · intro e he
    simp only [serverStep, h] at he ⊢
    simp only [List.mem_singleton] at he
    subst he
    refine ⟨⟨_, rfl⟩, rfl, ?_⟩
    simp [recipients, List.mem_filter]
  · intro e he
    simp only [serverStep, h] at he ⊢
    simp only [List.mem_singleton] at he
    subst he
    refine ⟨⟨_, _, _, rfl⟩, ?_, ?_⟩
    · simp [recipients, memberIds_updateUserCursor]
    · simp [recipients, List.mem_filter, memberIds_updateUserCursor]
  · intro e he
    simp only [serverStep, h] at he ⊢
    cases hu : (undoStroke st.stateManager r).2 with
    | none => simp [hu] at he
    | some gid =>
      simp only [hu, List.mem_singleton] at he
      subst he
      exact ⟨⟨_, rfl⟩, rfl, hm⟩
  · intro e he
    simp only [serverStep, h] at he ⊢
    cases hu : (redoStroke st.stateManager r).2 with
    | none => simp [hu] at he
    | some ss =>
      simp only [hu, List.mem_singleton] at he
      subst he
      exact ⟨⟨_, rfl⟩, rfl, hm⟩
  · intro e he
    simp only [serverStep, h] at he ⊢
    simp only [List.mem_singleton] at he
    subst he
    exact ⟨rfl, rfl, hm⟩

/-- Fixture server state for the C6 witness: sockets `A` and `B` are
members of room `R`, whose history holds one `g1` Segment. -/
def wSrv : ServerState :=
  ⟨⟨[("R", ⟨[("A", ⟨"A", "#111111", ⟨0, 0⟩⟩), ("B", ⟨"B", "#222222", ⟨0, 0⟩⟩)]⟩)]⟩,
   ⟨[("R", ⟨[wSeg "A" "g1" 1], []⟩)]⟩⟩

/-- Fixture socket `A` currently in room `R`. -/
def wSockIn : SocketState := ⟨"A", ⟨"A", "#111111", ⟨0, 0⟩⟩, some "R"⟩

/-- C6 witness: on `wSrv`, `A`'s drawing broadcast reaches only `B`, and
`A`'s undo broadcast reaches both `A` and `B`. -/
theorem c6_broadcast_fanout_witness :
    wSockIn.currentRoom = some "R" ∧
    wSockIn.sid ∈ memberIds wSrv.roomManager "R" ∧
    ((∃ s, (⟨Target.toRoomExceptSender "R",
             Payload.remoteDrawing (wSeg "A" "g1" 9)⟩ : Emit).payload
        = Payload.remoteDrawing s) ∧
     recipients (serverStep (.drawingStep wDraw) 9 wSockIn wSrv).state.roomManager
         wSockIn.sid (⟨Target.toRoomExceptSender "R",
             Payload.remoteDrawing (wSeg "A" "g1" 9)⟩ : Emit).target
       = (memberIds wSrv.roomManager "R").filter (fun u => ¬ u = wSockIn.sid) ∧
     wSockIn.sid ∉
       recipients (serverStep (.drawingStep wDraw) 9 wSockIn wSrv).state.roomManager
         wSockIn.sid (⟨Target.toRoomExceptSender "R",
             Payload.remoteDrawing (wSeg "A" "g1" 9)⟩ : Emit).target) ∧
    ((∃ g, (⟨Target.toRoomAll "R", Payload.strokeRemoved "g1"⟩ : Emit).payload
        = Payload.strokeRemoved g) ∧
     recipients (serverStep .undo 9 wSockIn wSrv).state.roomManager wSockIn.sid
         (⟨Target.toRoomAll "R", Payload.strokeRemoved "g1"⟩ : Emit).target
       = memberIds wSrv.roomManager "R" ∧
     wSockIn.sid ∈ recipients (serverStep .undo 9 wSockIn wSrv).state.roomManager
         wSockIn.sid (⟨Target.toRoomAll "R", Payload.strokeRemoved "g1"⟩ : Emit).target) :=
  ⟨by decide, by decide,
   (c6_broadcast_fanout wSrv wSockIn "R" wDraw ⟨0, 0⟩ 9 (by decide) (by decide)).1
     ⟨Target.toRoomExceptSender "R", Payload.remoteDrawing (wSeg "A" "g1" 9)⟩
     (by decide),
   (c6_broadcast_fanout wSrv wSockIn "R" wDraw ⟨0, 0⟩ 9 (by decide) (by decide)).2.2.1
     ⟨Target.toRoomAll "R", Payload.strokeRemoved "g1"⟩ (by decide)⟩

/-- Fixture run for C1: socket `A` joins room `R`, commits one Segment of
gesture `g1` at time 2, then leaves (or, in the `wRunDisc` variant,
disconnects). -/
def wRunJoin : StepResult := serverStep (.joinRoom "R") 1 wSockFree ⟨⟨[]⟩, ⟨[]⟩⟩

/-- Second step of the C1 run: the drawing commit. -/
def wRunDraw : StepResult := serverStep (.drawingStep wDraw) 2 wRunJoin.sock wRunJoin.state

/-- Third step of the C1 run: the last member leaves. -/
def wRunLeave : StepResult := serverStep .leaveRoom 3 wRunDraw.sock wRunDraw.state

/-- Variant third step of the C1 run: the last member disconnects. -/
def wRunDisc : StepResult := serverStep .disconnect 3 wRunDraw.sock wRunDraw.state

/-- C1 fails on the code: after the last member of `R` leaves (by
`leave_room` or by `disconnect`), `exists(R)` does become false, but the
room's drawing history is NOT deleted — server.js never calls
`stateManager.deleteRoom` — so `history(R)` still returns the old Segment,
and a later joiner is sent the stale history instead of a clean room. -/
theorem c1_history_survives_last_leave :
    roomExists wRunLeave.state.roomManager "R" = false ∧
    getHistory wRunLeave.state.stateManager "R" = [wSeg "A" "g1" 2] ∧
    roomExists wRunDisc.state.roomManager "R" = false ∧
    getHistory wRunDisc.state.stateManager "R" = [wSeg "A" "g1" 2] ∧
    (⟨Target.toSender, Payload.loadHistory [wSeg "A" "g1" 2]⟩ : Emit)
      ∈ (serverStep (.joinRoom "R") 4 ⟨"B", ⟨"B", "#222222", ⟨0, 0⟩⟩, none⟩
          wRunLeave.state).emits := by
  refine ⟨?_, ?_, ?_, ?_, ?_⟩ <;> decide

end Canvas
